import Mathlib

/-!
Shallow embedding of the `securevault` custody ledger (`src/lib.rs`).

The Rust code keeps a `HashMap<String, Wallet>` registry and a
`Vec<Transaction>` append-only log inside a `CustodySystem` struct, and
mutates them through `create_wallet`, `deposit`, `withdraw` and `transfer`.
Amounts are the exact decimal values the spec describes; we embed them as
rationals (`ℚ`).  The registry is embedded as a list of wallets with at most
one entry per identifier (the `HashMap` key-uniqueness guarantee; lookup is
first-match, and `insert` is only ever called when the key is absent, so it
appends).  Every mutating operation takes `&mut self` in Rust and may return
early with an error; we embed each one as a pure function returning the
result value together with the (possibly updated) system state, so that a
`?`-propagated error after a partial mutation would be visible in the model.
`current_timestamp()` reads the wall clock; the embedding takes the
timestamp as an explicit parameter and quantifies over it.
-/

namespace SecureVault

/-- `WalletType` from `src/lib.rs`: Hot (operational) or Cold (storage). -/
inductive WalletType
  | Hot
  | Cold
  deriving DecidableEq

/-- `Wallet` from `src/lib.rs`. -/
structure Wallet where
  id : String
  address : String
  balance : ℚ
  wallet_type : WalletType
  deriving DecidableEq

/-- `TransactionType` from `src/lib.rs`: Deposit or Withdrawal. -/
inductive TransactionType
  | Deposit
  | Withdrawal
  deriving DecidableEq

/-- `Transaction` from `src/lib.rs`: one audit-trail record. -/
structure Transaction where
  wallet_id : String
  transaction_type : TransactionType
  amount : ℚ
  timestamp : Nat
  deriving DecidableEq

/-- The error values of `src/lib.rs`, which are `format!`-ed strings.  Each
constructor stands for one distinct message template and carries exactly the
data interpolated into it:
`AlreadyExists id` = "Wallet with id id already exists";
`InvalidAmount` = "... amount must be positive" (deposit, withdraw, transfer);
`NotFound id` = "Wallet id not found";
`SourceNotFound id` = "Source wallet id not found";
`DestinationNotFound id` = "Destination wallet id not found";
`InsufficientBalance available requested` = "Insufficient balance:
available available, requested requested" (withdraw and transfer variants). -/
inductive VaultError
  | AlreadyExists (id : String)
  | InvalidAmount
  | NotFound (id : String)
  | SourceNotFound (id : String)
  | DestinationNotFound (id : String)
  | InsufficientBalance (available requested : ℚ)
  deriving DecidableEq

/-- `CustodySystem` from `src/lib.rs`: wallet registry plus transaction log. -/
structure CustodySystem where
  wallets : List Wallet
  transactions : List Transaction
  deriving DecidableEq

/-- `CustodySystem::new`. -/
def CustodySystem.new : CustodySystem :=
  { wallets := [], transactions := [] }

/-- `CustodySystem::get_wallet`: `self.wallets.get(id)` (first and only
entry with this key). -/
def CustodySystem.get_wallet (s : CustodySystem) (id : String) : Option Wallet :=
  s.wallets.find? (fun w => w.id == id)

/-- `CustodySystem::wallet_exists`: `self.wallets.contains_key(id)`. -/
def CustodySystem.wallet_exists (s : CustodySystem) (id : String) : Bool :=
  (s.get_wallet id).isSome

/-- `self.wallets.get_mut(id)` followed by a field update: rewrite the (at
most one) entry whose key is `id`, first match. -/
def updateWallet : List Wallet → String → (Wallet → Wallet) → List Wallet
  | [], _, _ => []
  | w :: ws, id, f => if w.id == id then f w :: ws else w :: updateWallet ws id f

/-- `CustodySystem::create_wallet`. -/
def CustodySystem.create_wallet (s : CustodySystem) (id address : String)
    (wallet_type : WalletType) : Except VaultError Wallet × CustodySystem :=
  if s.wallet_exists id then
    (.error (.AlreadyExists id), s)
  else
    let wallet : Wallet := { id := id, address := address, balance := 0, wallet_type := wallet_type }
    (.ok wallet, { s with wallets := s.wallets ++ [wallet] })

/-- `CustodySystem::deposit`; `ts` is the value `current_timestamp()`
returns during the call. -/
def CustodySystem.deposit (s : CustodySystem) (id : String) (amount : ℚ)
    (ts : Nat) : Except VaultError Unit × CustodySystem :=
  if amount ≤ 0 then (.error .InvalidAmount, s)
  else
    match s.get_wallet id with
    | some _ =>
        (.ok (),
          { wallets := updateWallet s.wallets id (fun w => { w with balance := w.balance + amount }),
            transactions := s.transactions ++
              [{ wallet_id := id, transaction_type := .Deposit, amount := amount, timestamp := ts }] })
    | none => (.error (.NotFound id), s)

/-- `CustodySystem::withdraw`; `ts` is the value `current_timestamp()`
returns during the call. -/
def CustodySystem.withdraw (s : CustodySystem) (id : String) (amount : ℚ)
    (ts : Nat) : Except VaultError Unit × CustodySystem :=
  if amount ≤ 0 then (.error .InvalidAmount, s)
  else
    match s.get_wallet id with
    | some w =>
        if w.balance ≥ amount then
          (.ok (),
            { wallets := updateWallet s.wallets id (fun x => { x with balance := x.balance - amount }),
              transactions := s.transactions ++
                [{ wallet_id := id, transaction_type := .Withdrawal, amount := amount, timestamp := ts }] })
        else (.error (.InsufficientBalance w.balance amount), s)
    | none => (.error (.NotFound id), s)

/-- `CustodySystem::get_total_balance`:
`self.wallets.values().map(|w| w.balance).sum()`. -/
def CustodySystem.get_total_balance (s : CustodySystem) : ℚ :=
  (s.wallets.map Wallet.balance).sum

/-- `CustodySystem::get_wallet_transactions`: iterate the log and keep the
records whose `wallet_id` matches. -/
def CustodySystem.get_wallet_transactions (s : CustodySystem) (wallet_id : String) :
    List Transaction :=
  s.transactions.filter (fun t => t.wallet_id == wallet_id)

/-- `CustodySystem::wallet_count`. -/
def CustodySystem.wallet_count (s : CustodySystem) : Nat :=
  s.wallets.length

/-- `CustodySystem::transfer`; `ts1`/`ts2` are the timestamps the inner
withdraw and deposit record.  The `none` arm of the inner match embeds the
`.unwrap()` on `self.get_wallet(from_id)`, unreachable behind the
`wallet_exists` guard. -/
def CustodySystem.transfer (s : CustodySystem) (from_id to_id : String)
    (amount : ℚ) (ts1 ts2 : Nat) : Except VaultError Unit × CustodySystem :=
  if amount ≤ 0 then (.error .InvalidAmount, s)
  else if !s.wallet_exists from_id then (.error (.SourceNotFound from_id), s)
  else if !s.wallet_exists to_id then (.error (.DestinationNotFound to_id), s)
  else
    match s.get_wallet from_id with
    | none => (.error (.SourceNotFound from_id), s)
    | some w =>
        if w.balance < amount then (.error (.InsufficientBalance w.balance amount), s)
        else
          match s.withdraw from_id amount ts1 with
          | (.error e, s1) => (.error e, s1)
          | (.ok _, s1) =>
              match s1.deposit to_id amount ts2 with
              | (.error e, s2) => (.error e, s2)
              | (.ok _, s2) => (.ok (), s2)

/-- One public mutating call on the system, with the wall-clock values its
transaction records would carry. -/
inductive Op
  | create_wallet (id address : String) (wallet_type : WalletType)
  | deposit (id : String) (amount : ℚ) (ts : Nat)
  | withdraw (id : String) (amount : ℚ) (ts : Nat)
  | transfer (from_id to_id : String) (amount : ℚ) (ts1 ts2 : Nat)

/-- The state after one call, successful or failed (the Rust methods take
`&mut self`; a failed call returns the error and leaves the state as the
method left it). -/
def CustodySystem.step (s : CustodySystem) : Op → CustodySystem
  | .create_wallet id address wt => (s.create_wallet id address wt).2
  | .deposit id amount ts => (s.deposit id amount ts).2
  | .withdraw id amount ts => (s.withdraw id amount ts).2
  | .transfer from_id to_id amount ts1 ts2 => (s.transfer from_id to_id amount ts1 ts2).2

/-- The state a fresh `CustodySystem` reaches after a sequence of calls. -/
def CustodySystem.run (ops : List Op) : CustodySystem :=
  ops.foldl CustodySystem.step CustodySystem.new

/-- Sum of the amounts of the log records of a given kind for a given
wallet (the spec's Σdeposits and Σwithdrawals). -/
def amountSum (tt : TransactionType) (id : String) (txs : List Transaction) : ℚ :=
  ((txs.filter (fun t => decide (t.wallet_id = id ∧ t.transaction_type = tt))).map
    Transaction.amount).sum

/-- The balance shift a log record of kind `tt` and amount `a` causes for
its wallet. -/
def txDelta (tt : TransactionType) (a : ℚ) : ℚ :=
  match tt with
  | .Deposit => a
  | .Withdrawal => -a

/-- The reachable-state invariant: registry keys are unique, every log
record refers to a registered wallet, every balance is the net of that
wallet's log subsequence, and every balance is nonnegative. -/
def Inv (s : CustodySystem) : Prop :=
  (s.wallets.map Wallet.id).Nodup ∧
  (∀ t ∈ s.transactions, t.wallet_id ∈ s.wallets.map Wallet.id) ∧
  (∀ w ∈ s.wallets,
    w.balance = amountSum .Deposit w.id s.transactions
      - amountSum .Withdrawal w.id s.transactions) ∧
  (∀ w ∈ s.wallets, 0 ≤ w.balance)

/-! Concrete inputs used to instantiate the verified properties. -/

/-- A sample registered hot wallet holding `5`. -/
def wA : Wallet := { id := "a", address := "0xA", balance := 5, wallet_type := .Hot }

/-- A sample registered cold wallet holding `1`. -/
def wB : Wallet := { id := "b", address := "0xB", balance := 1, wallet_type := .Cold }

/-- A sample system with the two wallets above and an empty log. -/
def sAB : CustodySystem := { wallets := [wA, wB], transactions := [] }

/-- The state `sAB` reaches after a sample transfer of `3` from `a` to `b`. -/
def sAB2 : CustodySystem := (sAB.transfer "a" "b" 3 7 8).2

/-- The state `sAB` reaches after a sample self-transfer of `3` on `a`. -/
def sAA2 : CustodySystem := (sAB.transfer "a" "a" 3 7 8).2

/-- A sample call sequence: one wallet created, nothing moved. -/
def opsW : List Op := [.create_wallet "w1" "0x1" .Hot]

/-- The wallet `opsW` creates. -/
def w1w : Wallet := { id := "w1", address := "0x1", balance := 0, wallet_type := .Hot }

/-- Rewriting one keyed entry does not change the key sequence when the
update function preserves the key. -/
theorem updateWallet_map_id (ws : List Wallet) (id : String) (f : Wallet → Wallet)
    (hf : ∀ w, (f w).id = w.id) :
    (updateWallet ws id f).map Wallet.id = ws.map Wallet.id := by
  induction ws with
  | nil => rfl
  | cons w ws ih =>
      by_cases h : (w.id == id) = true
      · simp [updateWallet, h, hf]
      · simp [updateWallet, h, ih]

/-- Every member of the rewritten registry is an old member or the image of
an old member whose key matched. -/
theorem mem_updateWallet {ws : List Wallet} {id : String} {f : Wallet → Wallet} {w' : Wallet}
    (h : w' ∈ updateWallet ws id f) :
    w' ∈ ws ∨ ∃ w, w ∈ ws ∧ w.id = id ∧ w' = f w := by
  induction ws with
  | nil => simp [updateWallet] at h
  | cons w ws ih =>
      by_cases hw : (w.id == id) = true
      · simp only [updateWallet, if_pos hw, List.mem_cons] at h
        rcases h with h | h
        · exact Or.inr ⟨w, List.mem_cons_self .., by simpa using hw, h⟩
        · exact Or.inl (List.mem_cons_of_mem _ h)
      · simp only [updateWallet, if_neg hw, List.mem_cons] at h
        rcases h with h | h
        · exact Or.inl (h ▸ List.mem_cons_self ..)
        · rcases ih h with h | ⟨x, hx, hxid, hx2⟩
          · exact Or.inl (List.mem_cons_of_mem _ h)
          · exact Or.inr ⟨x, List.mem_cons_of_mem _ hx, hxid, hx2⟩

/-- A successful first-match lookup splits the registry as
`l ++ w0 :: r` with no match in `l`, and the keyed rewrite rewrites exactly
that occurrence. -/
theorem find?_eq_some_decomp {ws : List Wallet} {id : String} {w0 : Wallet}
    (h : ws.find? (fun w => w.id == id) = some w0) :
    ∃ l r, ws = l ++ w0 :: r ∧ (∀ x ∈ l, x.id ≠ id) ∧ w0.id = id ∧
      ∀ f, updateWallet ws id f = l ++ f w0 :: r := by
  induction ws with
  | nil => simp at h
  | cons w ws ih =>
      cases hw : (w.id == id) with
      | true =>
          simp only [List.find?_cons, hw] at h
          have hww : w = w0 := by simpa using h
          refine ⟨[], ws, by simp [hww], by simp, ?_, ?_⟩
          · simpa [← hww] using hw
          · intro f
            simp [updateWallet, ← hww, hw]
      | false =>
          simp only [List.find?_cons, hw] at h
          rcases ih h with ⟨l, r, hsplit, hl, hid, hupd⟩
          refine ⟨w :: l, r, by simp [hsplit], ?_, hid, ?_⟩
          · intro x hx
            rcases List.mem_cons.mp hx with hx | hx
            · subst hx; simpa using hw
            · exact hl x hx
          · intro f
            simp [updateWallet, hw, hupd f]

/-- First-match lookup over a split list whose left part has no match. -/
theorem find?_append_cons_of_no_match {l : List Wallet} {id : String} {y : Wallet}
    (r : List Wallet) (hl : ∀ x ∈ l, x.id ≠ id) (hy : (y.id == id) = true) :
    (l ++ y :: r).find? (fun w => w.id == id) = some y := by
  induction l with
  | nil => simp only [List.nil_append, List.find?_cons, hy]
  | cons x l ihl =>
      have hx : (x.id == id) = false := by
        simpa using hl x (List.mem_cons_self ..)
      rw [List.cons_append]
      simp only [List.find?_cons, hx]
      exact ihl (fun y hy => hl y (List.mem_cons_of_mem _ hy))

/-- Looking up the rewritten key finds the rewritten wallet. -/
theorem find?_updateWallet_self {ws : List Wallet} {id : String} {w0 : Wallet}
    (f : Wallet → Wallet) (hf : ∀ w, (f w).id = w.id)
    (h : ws.find? (fun w => w.id == id) = some w0) :
    (updateWallet ws id f).find? (fun w => w.id == id) = some (f w0) := by
  rcases find?_eq_some_decomp h with ⟨l, r, _, hl, hid, hupd⟩
  rw [hupd f]
  exact find?_append_cons_of_no_match r hl (by simp [hf, hid])

/-- Looking up a different key is unaffected by the keyed rewrite. -/
theorem find?_updateWallet_ne {ws : List Wallet} {id id2 : String}
    (f : Wallet → Wallet) (hf : ∀ w, (f w).id = w.id) (hne : id ≠ id2) :
    (updateWallet ws id f).find? (fun w => w.id == id2) = ws.find? (fun w => w.id == id2) := by
  induction ws with
  | nil => rfl
  | cons w ws ih =>
      cases hw : (w.id == id) with
      | true =>
          have hid' : w.id = id := beq_iff_eq.mp hw
          have hw2 : (w.id == id2) = false := by
            simpa using fun h2 => hne (hid'.symm.trans h2)
          have hfw2 : ((f w).id == id2) = false := by simpa [hf] using hw2
          rw [updateWallet, if_pos hw]
          simp only [List.find?_cons, hfw2, hw2]
      | false =>
          rw [updateWallet, if_neg (by simp [hw])]
          cases hw2 : (w.id == id2) with
          | true => simp only [List.find?_cons, hw2]
          | false => simp only [List.find?_cons, hw2, ih]

/-- A wallet identifier is registered exactly when it occurs among the
registry keys. -/
theorem wallet_exists_iff_mem {s : CustodySystem} {id : String} :
    s.wallet_exists id = true ↔ id ∈ s.wallets.map Wallet.id := by
  rw [CustodySystem.wallet_exists, CustodySystem.get_wallet, List.find?_isSome]
  constructor
  · rintro ⟨w, hw, hid⟩
    exact List.mem_map.mpr ⟨w, hw, by simpa using hid⟩
  · rintro h
    rcases List.mem_map.mp h with ⟨w, hw, hid⟩
    exact ⟨w, hw, by simpa using hid⟩

/-- Appending one record to the log shifts the per-wallet amount sums by
that record's amount exactly for its own wallet and kind. -/
theorem amountSum_append (tt : TransactionType) (id : String) (txs : List Transaction)
    (t : Transaction) :
    amountSum tt id (txs ++ [t]) =
      amountSum tt id txs +
        (if t.wallet_id = id ∧ t.transaction_type = tt then t.amount else 0) := by
  rw [amountSum, amountSum, List.filter_append]
  by_cases h : t.wallet_id = id ∧ t.transaction_type = tt
  · simp [h]
  · simp [h]

/-- A wallet that never occurs in the log has zero amount sums. -/
theorem amountSum_eq_zero {id : String} {txs : List Transaction}
    (h : ∀ t ∈ txs, t.wallet_id ≠ id) (tt : TransactionType) :
    amountSum tt id txs = 0 := by
  rw [amountSum]
  have hnil : txs.filter (fun t => decide (t.wallet_id = id ∧ t.transaction_type = tt)) = [] := by
    rw [List.filter_eq_nil_iff]
    intro t ht
    simp [h t ht]
  rw [hnil]
  simp

/-- Effect of the keyed rewrite on the total of all balances. -/
theorem sum_balance_updateWallet {ws : List Wallet} {id : String} {w0 : Wallet}
    (f : Wallet → Wallet)
    (h : ws.find? (fun w => w.id == id) = some w0) :
    ((updateWallet ws id f).map Wallet.balance).sum
      = (ws.map Wallet.balance).sum - w0.balance + (f w0).balance := by
  rcases find?_eq_some_decomp h with ⟨l, r, hsplit, _, _, hupd⟩
  rw [hupd f, hsplit]
  simp [List.sum_append]
  ring

/-- Rewriting a key that is not registered changes nothing. -/
theorem updateWallet_no_match {ws : List Wallet} {id : String} (f : Wallet → Wallet)
    (h : ws.find? (fun w => w.id == id) = none) :
    updateWallet ws id f = ws := by
  induction ws with
  | nil => rfl
  | cons w ws ih =>
      cases hw : (w.id == id) with
      | true =>
          simp only [List.find?_cons, hw] at h
          exact Option.noConfusion h
      | false =>
          simp only [List.find?_cons, hw] at h
          rw [updateWallet, if_neg (by simp [hw]), ih h]

/-- A keyed rewrite never changes which identifiers are registered. -/
theorem find?_updateWallet_isSome (ws : List Wallet) (id id2 : String)
    (f : Wallet → Wallet) (hf : ∀ w, (f w).id = w.id) :
    ((updateWallet ws id f).find? (fun w => w.id == id2)).isSome
      = (ws.find? (fun w => w.id == id2)).isSome := by
  by_cases h : id = id2
  · subst h
    cases hfind : ws.find? (fun w => w.id == id) with
    | some w0 =>
        rw [find?_updateWallet_self f hf hfind]
        rfl
    | none =>
        rw [updateWallet_no_match f hfind, hfind]
  · rw [find?_updateWallet_ne f hf h]

/-- `deposit` on a nonpositive amount: the first guard fires and the state
is untouched. -/
theorem deposit_err_nonpos (s : CustodySystem) (id : String) (a : ℚ) (ts : Nat)
    (ha : a ≤ 0) : s.deposit id a ts = (.error .InvalidAmount, s) := by
  rw [CustodySystem.deposit, if_pos ha]

/-- `deposit` on an unregistered wallet: `NotFound`, state untouched. -/
theorem deposit_err_notfound (s : CustodySystem) (id : String) (a : ℚ) (ts : Nat)
    (ha : 0 < a) (hw : s.get_wallet id = none) :
    s.deposit id a ts = (.error (.NotFound id), s) := by
  rw [CustodySystem.deposit, if_neg (not_le.mpr ha), hw]

/-- Successful `deposit`: the matched wallet's balance grows by the amount
and one `Deposit` record is appended. -/
theorem deposit_ok_eq (s : CustodySystem) (id : String) (a : ℚ) (ts : Nat) (w : Wallet)
    (ha : 0 < a) (hw : s.get_wallet id = some w) :
    s.deposit id a ts =
      (.ok (),
        { wallets := updateWallet s.wallets id (fun x => { x with balance := x.balance + a }),
          transactions := s.transactions ++
            [{ wallet_id := id, transaction_type := .Deposit, amount := a, timestamp := ts }] }) := by
  rw [CustodySystem.deposit, if_neg (not_le.mpr ha), hw]

/-- `withdraw` on a nonpositive amount. -/
theorem withdraw_err_nonpos (s : CustodySystem) (id : String) (a : ℚ) (ts : Nat)
    (ha : a ≤ 0) : s.withdraw id a ts = (.error .InvalidAmount, s) := by
  rw [CustodySystem.withdraw, if_pos ha]

/-- `withdraw` on an unregistered wallet. -/
theorem withdraw_err_notfound (s : CustodySystem) (id : String) (a : ℚ) (ts : Nat)
    (ha : 0 < a) (hw : s.get_wallet id = none) :
    s.withdraw id a ts = (.error (.NotFound id), s) := by
  rw [CustodySystem.withdraw, if_neg (not_le.mpr ha), hw]

/-- `withdraw` with too large an amount: `InsufficientBalance` carrying the
available and requested amounts, state untouched. -/
theorem withdraw_err_insufficient (s : CustodySystem) (id : String) (a : ℚ) (ts : Nat)
    (w : Wallet) (ha : 0 < a) (hw : s.get_wallet id = some w) (hb : w.balance < a) :
    s.withdraw id a ts = (.error (.InsufficientBalance w.balance a), s) := by
  rw [CustodySystem.withdraw, if_neg (not_le.mpr ha), hw]
  simp only [ge_iff_le, if_neg (not_le.mpr hb)]

/-- Successful `withdraw`: the matched wallet's balance shrinks by the
amount and one `Withdrawal` record is appended. -/
theorem withdraw_ok_eq (s : CustodySystem) (id : String) (a : ℚ) (ts : Nat) (w : Wallet)
    (ha : 0 < a) (hw : s.get_wallet id = some w) (hb : a ≤ w.balance) :
    s.withdraw id a ts =
      (.ok (),
        { wallets := updateWallet s.wallets id (fun x => { x with balance := x.balance - a }),
          transactions := s.transactions ++
            [{ wallet_id := id, transaction_type := .Withdrawal, amount := a, timestamp := ts }] }) := by
  rw [CustodySystem.withdraw, if_neg (not_le.mpr ha), hw]
  simp only [ge_iff_le, if_pos hb]

/-- `create_wallet` on a taken identifier. -/
theorem create_wallet_err_exists (s : CustodySystem) (id address : String)
    (wt : WalletType) (h : s.wallet_exists id = true) :
    s.create_wallet id address wt = (.error (.AlreadyExists id), s) := by
  rw [CustodySystem.create_wallet, if_pos h]

/-- Successful `create_wallet`: the new wallet has the given fields and
balance `0`, and is added to the registry; the log is untouched. -/
theorem create_wallet_ok_eq (s : CustodySystem) (id address : String)
    (wt : WalletType) (h : s.wallet_exists id = false) :
    s.create_wallet id address wt =
      (.ok { id := id, address := address, balance := 0, wallet_type := wt },
        { s with wallets := s.wallets ++
            [{ id := id, address := address, balance := 0, wallet_type := wt }] }) := by
  rw [CustodySystem.create_wallet, if_neg (by simp [h])]

/-- A successful lookup means the identifier is registered. -/
theorem wallet_exists_of_get (s : CustodySystem) (id : String) (w : Wallet)
    (h : s.get_wallet id = some w) : s.wallet_exists id = true := by
  rw [CustodySystem.wallet_exists, h]
  rfl

/-- A registered identifier has a wallet. -/
theorem get_of_wallet_exists (s : CustodySystem) (id : String)
    (h : s.wallet_exists id = true) : ∃ w, s.get_wallet id = some w := by
  rw [CustodySystem.wallet_exists] at h
  exact Option.isSome_iff_exists.mp h

/-- `transfer`, check (1): nonpositive amount. -/
theorem transfer_err_nonpos (s : CustodySystem) (f t : String) (a : ℚ) (ts1 ts2 : Nat)
    (ha : a ≤ 0) : s.transfer f t a ts1 ts2 = (.error .InvalidAmount, s) := by
  rw [CustodySystem.transfer, if_pos ha]

/-- `transfer`, check (2): unregistered source. -/
theorem transfer_err_source (s : CustodySystem) (f t : String) (a : ℚ) (ts1 ts2 : Nat)
    (ha : 0 < a) (hf : s.wallet_exists f = false) :
    s.transfer f t a ts1 ts2 = (.error (.SourceNotFound f), s) := by
  rw [CustodySystem.transfer, if_neg (not_le.mpr ha), hf]
  simp

/-- `transfer`, check (3): unregistered destination. -/
theorem transfer_err_dest (s : CustodySystem) (f t : String) (a : ℚ) (ts1 ts2 : Nat)
    (ha : 0 < a) (hf : s.wallet_exists f = true) (ht : s.wallet_exists t = false) :
    s.transfer f t a ts1 ts2 = (.error (.DestinationNotFound t), s) := by
  rw [CustodySystem.transfer, if_neg (not_le.mpr ha), hf, ht]
  simp

/-- `transfer`, check (4): insufficient source balance. -/
theorem transfer_err_insufficient (s : CustodySystem) (f t : String) (a : ℚ)
    (ts1 ts2 : Nat) (w : Wallet) (ha : 0 < a) (hw : s.get_wallet f = some w)
    (ht : s.wallet_exists t = true) (hb : w.balance < a) :
    s.transfer f t a ts1 ts2 = (.error (.InsufficientBalance w.balance a), s) := by
  rw [CustodySystem.transfer, if_neg (not_le.mpr ha), wallet_exists_of_get s f w hw, ht, hw]
  simp [hb]

/-- Successful `transfer`: the composite of the source withdrawal and the
destination deposit, with the two records appended in that order. -/
theorem transfer_ok_eq (s : CustodySystem) (f t : String) (a : ℚ) (ts1 ts2 : Nat)
    (w : Wallet) (ha : 0 < a) (hw : s.get_wallet f = some w) (hb : a ≤ w.balance)
    (ht : s.wallet_exists t = true) :
    s.transfer f t a ts1 ts2 =
      (.ok (),
        { wallets := updateWallet
            (updateWallet s.wallets f (fun x => { x with balance := x.balance - a })) t
            (fun x => { x with balance := x.balance + a }),
          transactions := s.transactions ++
            [{ wallet_id := f, transaction_type := .Withdrawal, amount := a, timestamp := ts1 },
             { wallet_id := t, transaction_type := .Deposit, amount := a, timestamp := ts2 }] }) := by
  have hf : s.wallet_exists f = true := wallet_exists_of_get s f w hw
  have ht1 : ∃ wt1,
      (updateWallet s.wallets f (fun x => { x with balance := x.balance - a })).find?
        (fun x => x.id == t) = some wt1 := by
    rw [← Option.isSome_iff_exists,
      find?_updateWallet_isSome s.wallets f t
        (fun x => { x with balance := x.balance - a }) (fun _ => rfl)]
    rw [CustodySystem.wallet_exists, CustodySystem.get_wallet] at ht
    exact ht
  rcases ht1 with ⟨wt1, ht1⟩
  have hdep := deposit_ok_eq
    ⟨updateWallet s.wallets f (fun x => { x with balance := x.balance - a }),
      s.transactions ++
        [{ wallet_id := f, transaction_type := .Withdrawal, amount := a, timestamp := ts1 }]⟩
    t a ts2 wt1 ha (by rw [CustodySystem.get_wallet]; exact ht1)
  have hb' : ¬ w.balance < a := not_lt.mpr hb
  rw [CustodySystem.transfer, if_neg (not_le.mpr ha), hf, ht, hw,
    withdraw_ok_eq s f a ts1 w ha hw hb]
  simp [hb', hdep, List.append_assoc]

/-- Any failing `transfer` returns the state it was called in. -/
theorem transfer_err_state {s : CustodySystem} {f t : String} {a : ℚ} {ts1 ts2 : Nat}
    {e : VaultError} {s2 : CustodySystem}
    (h : s.transfer f t a ts1 ts2 = (.error e, s2)) : s2 = s := by
  by_cases ha : a ≤ 0
  · rw [transfer_err_nonpos s f t a ts1 ts2 ha] at h
    simp only [Prod.mk.injEq] at h
    exact h.2.symm
  · have ha' : 0 < a := not_le.mp ha
    cases hf : s.wallet_exists f with
    | false =>
        rw [transfer_err_source s f t a ts1 ts2 ha' hf] at h
        simp only [Prod.mk.injEq] at h
        exact h.2.symm
    | true =>
        rcases get_of_wallet_exists s f hf with ⟨w, hw⟩
        cases ht : s.wallet_exists t with
        | false =>
            rw [transfer_err_dest s f t a ts1 ts2 ha' hf ht] at h
            simp only [Prod.mk.injEq] at h
            exact h.2.symm
        | true =>
            by_cases hb : w.balance < a
            · rw [transfer_err_insufficient s f t a ts1 ts2 w ha' hw ht hb] at h
              simp only [Prod.mk.injEq] at h
              exact h.2.symm
            · rw [transfer_ok_eq s f t a ts1 ts2 w ha' hw (not_lt.mp hb) ht] at h
              simp at h

/-- A successful `transfer` passed all four checks. -/
theorem transfer_ok_inv {s : CustodySystem} {f t : String} {a : ℚ} {ts1 ts2 : Nat}
    {s2 : CustodySystem} (h : s.transfer f t a ts1 ts2 = (.ok (), s2)) :
    0 < a ∧ ∃ w, s.get_wallet f = some w ∧ a ≤ w.balance ∧ s.wallet_exists t = true := by
  by_cases ha : a ≤ 0
  · rw [transfer_err_nonpos s f t a ts1 ts2 ha] at h
    simp at h
  · have ha' : 0 < a := not_le.mp ha
    cases hf : s.wallet_exists f with
    | false =>
        rw [transfer_err_source s f t a ts1 ts2 ha' hf] at h
        simp at h
    | true =>
        rcases get_of_wallet_exists s f hf with ⟨w, hw⟩
        cases ht : s.wallet_exists t with
        | false =>
            rw [transfer_err_dest s f t a ts1 ts2 ha' hf ht] at h
            simp at h
        | true =>
            by_cases hb : w.balance < a
            · rw [transfer_err_insufficient s f t a ts1 ts2 w ha' hw ht hb] at h
              simp at h
            · exact ⟨ha', w, hw, not_lt.mp hb, rfl⟩

theorem Inv_new : Inv CustodySystem.new := by
  refine ⟨?_, ?_, ?_, ?_⟩ <;> simp [CustodySystem.new]

/-- Shifting the first-matched wallet by a record's delta while appending
that record preserves the invariant, provided the shifted balance stays
nonnegative. -/
theorem Inv_apply_tx (s : CustodySystem) (id : String) (w0 : Wallet) (a : ℚ)
    (tt : TransactionType) (ts : Nat) (h : Inv s)
    (hw : s.get_wallet id = some w0)
    (hnn : 0 ≤ w0.balance + txDelta tt a) :
    Inv { wallets := updateWallet s.wallets id
            (fun x => { x with balance := x.balance + txDelta tt a }),
          transactions := s.transactions ++
            [{ wallet_id := id, transaction_type := tt, amount := a, timestamp := ts }] } := by
  obtain ⟨hnodup, hreg, hbal, hpos⟩ := h
  rw [CustodySystem.get_wallet] at hw
  rcases find?_eq_some_decomp hw with ⟨l, r, hsplit, hl, hid, hupd⟩
  have hmapid : (updateWallet s.wallets id
        (fun x => { x with balance := x.balance + txDelta tt a })).map Wallet.id
      = s.wallets.map Wallet.id :=
    updateWallet_map_id _ _ _ (fun _ => rfl)
  have hw0mem : w0 ∈ s.wallets := by
    rw [hsplit]
    exact List.mem_append_right _ (List.mem_cons_self ..)
  have hrne : ∀ x ∈ r, x.id ≠ id := by
    intro x hx hxid
    have hn := hnodup
    rw [hsplit, List.map_append, List.map_cons] at hn
    have hn2 := List.nodup_middle.mp hn
    have := (List.nodup_cons.mp hn2).1
    exact this (List.mem_append_right _ (hid ▸ hxid ▸ List.mem_map_of_mem Wallet.id hx))
  refine ⟨?_, ?_, ?_, ?_⟩
  · rw [hmapid]
    exact hnodup
  · intro t ht
    rcases List.mem_append.mp ht with ht | ht
    · rw [hmapid]
      exact hreg t ht
    · have hteq : t.wallet_id = id := by
        rcases List.mem_singleton.mp ht with rfl
        rfl
      rw [hmapid, hteq]
      exact List.mem_map.mpr ⟨w0, hw0mem, hid⟩
  · intro w' hw'
    rw [hupd] at hw'
    have hside : ∀ x : Wallet, x ∈ s.wallets → x.id ≠ id →
        x.balance = amountSum .Deposit x.id (s.transactions ++
            [{ wallet_id := id, transaction_type := tt, amount := a, timestamp := ts }])
          - amountSum .Withdrawal x.id (s.transactions ++
            [{ wallet_id := id, transaction_type := tt, amount := a, timestamp := ts }]) := by
      intro x hx hxid
      rw [amountSum_append, amountSum_append,
        if_neg (by intro hc; exact hxid hc.1.symm),
        if_neg (by intro hc; exact hxid hc.1.symm)]
      simpa using hbal x hx
    rcases List.mem_append.mp hw' with hL | hCR
    · exact hside w' (by rw [hsplit]; exact List.mem_append_left _ hL) (hl w' hL)
    · rcases List.mem_cons.mp hCR with rfl | hR
      · show w0.balance + txDelta tt a = _
        rw [amountSum_append, amountSum_append]
        have hbw0 := hbal w0 hw0mem
        cases tt with
        | Deposit =>
            rw [if_pos ⟨hid.symm, rfl⟩, if_neg (by intro hc; cases hc.2)]
            show w0.balance + a = _
            rw [hbw0]
            ring
        | Withdrawal =>
            rw [if_neg (by intro hc; cases hc.2), if_pos ⟨hid.symm, rfl⟩]
            show w0.balance + -a = _
            rw [hbw0]
            ring
      · exact hside w'
          (by rw [hsplit]; exact List.mem_append_right _ (List.mem_cons_of_mem _ hR))
          (hrne w' hR)
  · intro w' hw'
    rw [hupd] at hw'
    rcases List.mem_append.mp hw' with hL | hCR
    · exact hpos w' (by rw [hsplit]; exact List.mem_append_left _ hL)
    · rcases List.mem_cons.mp hCR with rfl | hR
      · exact hnn
      · exact hpos w' (by rw [hsplit]; exact List.mem_append_right _ (List.mem_cons_of_mem _ hR))

/-- `create_wallet` preserves the invariant. -/
theorem Inv_create (s : CustodySystem) (id address : String) (wt : WalletType)
    (h : Inv s) : Inv (s.create_wallet id address wt).2 := by
  cases hex : s.wallet_exists id with
  | true =>
      rw [create_wallet_err_exists s id address wt hex]
      exact h
  | false =>
      rw [create_wallet_ok_eq s id address wt hex]
      obtain ⟨hnodup, hreg, hbal, hpos⟩ := h
      have hidnot : id ∉ s.wallets.map Wallet.id := by
        intro hmem
        rw [wallet_exists_iff_mem.mpr hmem] at hex
        cases hex
      have hlogne : ∀ t ∈ s.transactions, t.wallet_id ≠ id := by
        intro t ht hteq
        exact hidnot (hteq ▸ hreg t ht)
      refine ⟨?_, ?_, ?_, ?_⟩
      · simpa [List.nodup_append, hidnot] using hnodup
      · intro t ht
        simp only [List.map_append, List.map_cons, List.map_nil]
        exact List.mem_append_left _ (hreg t ht)
      · intro w' hw'
        rcases List.mem_append.mp hw' with hold | hnew
        · exact hbal w' hold
        · rcases List.mem_singleton.mp hnew with rfl
          show (0 : ℚ) = _
          rw [amountSum_eq_zero hlogne, amountSum_eq_zero hlogne]
          ring
      · intro w' hw'
        rcases List.mem_append.mp hw' with hold | hnew
        · exact hpos w' hold
        · rcases List.mem_singleton.mp hnew with rfl
          exact le_refl 0

/-- `deposit` preserves the invariant. -/
theorem Inv_deposit (s : CustodySystem) (id : String) (a : ℚ) (ts : Nat)
    (h : Inv s) : Inv (s.deposit id a ts).2 := by
  by_cases ha : a ≤ 0
  · rw [deposit_err_nonpos s id a ts ha]
    exact h
  · have ha' : 0 < a := not_le.mp ha
    cases hw : s.get_wallet id with
    | none =>
        rw [deposit_err_notfound s id a ts ha' hw]
        exact h
    | some w0 =>
        rw [deposit_ok_eq s id a ts w0 ha' hw]
        have hnn : 0 ≤ w0.balance + txDelta .Deposit a := by
          have := h.2.2.2 w0 (by
            rw [CustodySystem.get_wallet] at hw
            rcases find?_eq_some_decomp hw with ⟨l, r, hsplit, -, -, -⟩
            rw [hsplit]
            exact List.mem_append_right _ (List.mem_cons_self ..))
          show 0 ≤ w0.balance + a
          linarith
        exact Inv_apply_tx s id w0 a .Deposit ts h hw hnn

/-- `withdraw` preserves the invariant. -/
theorem Inv_withdraw (s : CustodySystem) (id : String) (a : ℚ) (ts : Nat)
    (h : Inv s) : Inv (s.withdraw id a ts).2 := by
  by_cases ha : a ≤ 0
  · rw [withdraw_err_nonpos s id a ts ha]
    exact h
  · have ha' : 0 < a := not_le.mp ha
    cases hw : s.get_wallet id with
    | none =>
        rw [withdraw_err_notfound s id a ts ha' hw]
        exact h
    | some w0 =>
        by_cases hb : w0.balance < a
        · rw [withdraw_err_insufficient s id a ts w0 ha' hw hb]
          exact h
        · rw [withdraw_ok_eq s id a ts w0 ha' hw (not_lt.mp hb)]
          have hnn : 0 ≤ w0.balance + txDelta .Withdrawal a := by
            show 0 ≤ w0.balance + -a
            have := not_lt.mp hb
            linarith
          have := Inv_apply_tx s id w0 a .Withdrawal ts h hw hnn
          have heq : (fun x : Wallet => { x with balance := x.balance - a })
              = fun x : Wallet => { x with balance := x.balance + txDelta .Withdrawal a } := by
            funext x
            show _ = Wallet.mk x.id x.address (x.balance + -a) x.wallet_type
            rw [← sub_eq_add_neg]
          rw [heq]
          exact this

/-- `transfer` preserves the invariant. -/
theorem Inv_transfer (s : CustodySystem) (f t : String) (a : ℚ) (ts1 ts2 : Nat)
    (h : Inv s) : Inv (s.transfer f t a ts1 ts2).2 := by
  rcases hres : s.transfer f t a ts1 ts2 with ⟨res, s2⟩
  cases res with
  | error e =>
      have : s2 = s := transfer_err_state hres
      rw [this]
      exact h
  | ok u =>
      cases u
      rcases transfer_ok_inv hres with ⟨ha, w, hw, hb, ht⟩
      have heq := transfer_ok_eq s f t a ts1 ts2 w ha hw hb ht
      have hs2 : s2 = (⟨updateWallet
            (updateWallet s.wallets f (fun x => { x with balance := x.balance - a })) t
            (fun x => { x with balance := x.balance + a }),
          s.transactions ++
            [{ wallet_id := f, transaction_type := .Withdrawal, amount := a, timestamp := ts1 },
             { wallet_id := t, transaction_type := .Deposit, amount := a, timestamp := ts2 }]⟩ :
          CustodySystem) := by
        have hcomp := hres.symm.trans heq
        simpa using hcomp
      rw [hs2]
      have h1 : Inv (⟨updateWallet s.wallets f
            (fun x => { x with balance := x.balance - a }),
          s.transactions ++
            [{ wallet_id := f, transaction_type := .Withdrawal, amount := a, timestamp := ts1 }]⟩ :
          CustodySystem) := by
        have := Inv_withdraw s f a ts1 h
        rw [withdraw_ok_eq s f a ts1 w ha hw hb] at this
        exact this
      obtain ⟨wt1, hwt1⟩ : ∃ wt1,
          (⟨updateWallet s.wallets f (fun x => { x with balance := x.balance - a }),
            s.transactions ++
              [{ wallet_id := f, transaction_type := .Withdrawal, amount := a, timestamp := ts1 }]⟩ :
            CustodySystem).get_wallet t = some wt1 := by
        rw [← Option.isSome_iff_exists, CustodySystem.get_wallet]
        show ((updateWallet s.wallets f fun x =>
          { x with balance := x.balance - a }).find? (fun w => w.id == t)).isSome = true
        rw [find?_updateWallet_isSome s.wallets f t
          (fun x => { x with balance := x.balance - a }) (fun _ => rfl)]
        rw [CustodySystem.wallet_exists, CustodySystem.get_wallet] at ht
        exact ht
      have h2 := Inv_deposit _ t a ts2 h1
      rw [deposit_ok_eq _ t a ts2 wt1 ha hwt1] at h2
      simpa [List.append_assoc] using h2

/-- Every public mutating call preserves the invariant. -/
theorem Inv_step (s : CustodySystem) (op : Op) (h : Inv s) : Inv (s.step op) := by
  cases op with
  | create_wallet id address wt => exact Inv_create s id address wt h
  | deposit id a ts => exact Inv_deposit s id a ts h
  | withdraw id a ts => exact Inv_withdraw s id a ts h
  | transfer f t a ts1 ts2 => exact Inv_transfer s f t a ts1 ts2 h

theorem Inv_foldl (ops : List Op) (s : CustodySystem) (h : Inv s) :
    Inv (ops.foldl CustodySystem.step s) := by
  induction ops generalizing s with
  | nil => exact h
  | cons op ops ih => exact ih _ (Inv_step s op h)

/-- Every state reachable from a fresh system satisfies the invariant. -/
theorem Inv_run (ops : List Op) : Inv (CustodySystem.run ops) :=
  Inv_foldl ops CustodySystem.new Inv_new

/-- C1: in every state reachable from a fresh `CustodySystem` by any
sequence of `create_wallet`, `deposit`, `withdraw` and `transfer` calls
(successful or failed), every registered wallet's balance equals the sum of
the amounts of its `Deposit` records in the transaction log minus the sum
of the amounts of its `Withdrawal` records. -/
theorem C1_balance_eq_net_of_log (ops : List Op) (w : Wallet)
    (hw : w ∈ (CustodySystem.run ops).wallets) :
    w.balance = amountSum .Deposit w.id (CustodySystem.run ops).transactions
      - amountSum .Withdrawal w.id (CustodySystem.run ops).transactions :=
  (Inv_run ops).2.2.1 w hw

theorem C1_witness :
    w1w ∈ (CustodySystem.run opsW).wallets ∧
    w1w.balance = amountSum .Deposit w1w.id (CustodySystem.run opsW).transactions
      - amountSum .Withdrawal w1w.id (CustodySystem.run opsW).transactions :=
  ⟨by decide, C1_balance_eq_net_of_log opsW w1w (by decide)⟩

/-- C2: in every reachable state every wallet's balance is nonnegative, and
a `withdraw` or `transfer` whose amount exceeds the (source) wallet's
balance fails with `InsufficientBalance` and returns the state unchanged. -/
theorem C2_nonnegative_balances (ops : List Op) :
    (∀ w ∈ (CustodySystem.run ops).wallets, 0 ≤ w.balance) ∧
    (∀ id a ts w, (CustodySystem.run ops).get_wallet id = some w → w.balance < a →
      (CustodySystem.run ops).withdraw id a ts
        = (.error (.InsufficientBalance w.balance a), CustodySystem.run ops)) ∧
    (∀ f t a ts1 ts2 w, (CustodySystem.run ops).get_wallet f = some w →
      (CustodySystem.run ops).wallet_exists t = true → w.balance < a →
      (CustodySystem.run ops).transfer f t a ts1 ts2
        = (.error (.InsufficientBalance w.balance a), CustodySystem.run ops)) := by
  have hpos := (Inv_run ops).2.2.2
  refine ⟨hpos, ?_, ?_⟩
  · intro id a ts w hw hb
    have hmem : w ∈ (CustodySystem.run ops).wallets := by
      rw [CustodySystem.get_wallet] at hw
      exact List.mem_of_find?_eq_some hw
    exact withdraw_err_insufficient _ id a ts w (lt_of_le_of_lt (hpos w hmem) hb) hw hb
  · intro f t a ts1 ts2 w hw ht hb
    have hmem : w ∈ (CustodySystem.run ops).wallets := by
      rw [CustodySystem.get_wallet] at hw
      exact List.mem_of_find?_eq_some hw
    exact transfer_err_insufficient _ f t a ts1 ts2 w (lt_of_le_of_lt (hpos w hmem) hb) hw ht hb

theorem C2_witness :
    0 ≤ w1w.balance ∧
    (CustodySystem.run opsW).withdraw "w1" 7 3
      = (.error (.InsufficientBalance w1w.balance 7), CustodySystem.run opsW) :=
  ⟨(C2_nonnegative_balances opsW).1 w1w (by decide),
   (C2_nonnegative_balances opsW).2.1 "w1" 7 3 w1w (by decide) (by decide)⟩

/-- C3: `transfer` performs its four validations in exactly the order
nonpositive amount, unregistered source, unregistered destination,
insufficient source balance — each producing its own error — and any
failing call returns the untouched state (registry, balances and log). -/
theorem C3_transfer_validation_order (s : CustodySystem) (f t : String) (a : ℚ)
    (ts1 ts2 : Nat) :
    (a ≤ 0 → s.transfer f t a ts1 ts2 = (.error .InvalidAmount, s)) ∧
    (0 < a → s.wallet_exists f = false →
      s.transfer f t a ts1 ts2 = (.error (.SourceNotFound f), s)) ∧
    (0 < a → s.wallet_exists f = true → s.wallet_exists t = false →
      s.transfer f t a ts1 ts2 = (.error (.DestinationNotFound t), s)) ∧
    (∀ w, 0 < a → s.get_wallet f = some w → s.wallet_exists t = true → w.balance < a →
      s.transfer f t a ts1 ts2 = (.error (.InsufficientBalance w.balance a), s)) ∧
    (∀ e s2, s.transfer f t a ts1 ts2 = (.error e, s2) → s2 = s) :=
  ⟨fun ha => transfer_err_nonpos s f t a ts1 ts2 ha,
   fun ha hf => transfer_err_source s f t a ts1 ts2 ha hf,
   fun ha hf ht => transfer_err_dest s f t a ts1 ts2 ha hf ht,
   fun w ha hw ht hb => transfer_err_insufficient s f t a ts1 ts2 w ha hw ht hb,
   fun _ _ h => transfer_err_state h⟩

theorem C3_witness :
    sAB.transfer "a" "b" 0 7 8 = (.error .InvalidAmount, sAB) ∧
    sAB.transfer "zz" "b" 3 7 8 = (.error (.SourceNotFound "zz"), sAB) ∧
    sAB.transfer "a" "zz" 3 7 8 = (.error (.DestinationNotFound "zz"), sAB) ∧
    sAB.transfer "a" "b" 7 7 8 = (.error (.InsufficientBalance wA.balance 7), sAB) :=
  ⟨(C3_transfer_validation_order sAB "a" "b" 0 7 8).1 (by decide),
   (C3_transfer_validation_order sAB "zz" "b" 3 7 8).2.1 (by decide) (by decide),
   (C3_transfer_validation_order sAB "a" "zz" 3 7 8).2.2.1 (by decide) (by decide) (by decide),
   (C3_transfer_validation_order sAB "a" "b" 7 7 8).2.2.2.1 wA (by decide) (by decide)
     (by decide) (by decide)⟩

/-- C4 (counterexample): the claim quantifies over every successful
transfer, but `transfer` also succeeds when source and destination are the
same wallet, and then the source balance does not decrease: on a wallet
holding `5`, `transfer "a" "a" 3` succeeds and leaves the balance at `5`,
not `5 - 3`. -/
theorem C4_counterexample :
    (sAB.transfer "a" "a" 3 7 8).1 = .ok () ∧
    ((sAB.transfer "a" "a" 3 7 8).2.get_wallet "a").map Wallet.balance = some 5 ∧
    ((sAB.transfer "a" "a" 3 7 8).2.get_wallet "a").map Wallet.balance ≠ some (5 - 3) := by
  refine ⟨rfl, ?_, ?_⟩
  · norm_num [sAB, wA, wB, CustodySystem.transfer, CustodySystem.withdraw,
      CustodySystem.deposit, CustodySystem.get_wallet, CustodySystem.wallet_exists,
      updateWallet, List.find?]
  · norm_num [sAB, wA, wB, CustodySystem.transfer, CustodySystem.withdraw,
      CustodySystem.deposit, CustodySystem.get_wallet, CustodySystem.wallet_exists,
      updateWallet, List.find?]

/-- C4 (amended: restricted to distinct source and destination): whenever
`transfer from_id to_id amount` succeeds and `from_id ≠ to_id`, the source
balance decreases by `amount`, the destination balance increases by
`amount`, and exactly a `Withdrawal` on the source followed by a `Deposit`
on the destination, both of that amount, are appended to the log. -/
theorem C4_transfer_success_distinct (s : CustodySystem) (f t : String) (a : ℚ)
    (ts1 ts2 : Nat) (s2 : CustodySystem) (hft : f ≠ t)
    (h : s.transfer f t a ts1 ts2 = (.ok (), s2)) :
    (∃ wf wt, s.get_wallet f = some wf ∧ s.get_wallet t = some wt ∧
      s2.get_wallet f = some { wf with balance := wf.balance - a } ∧
      s2.get_wallet t = some { wt with balance := wt.balance + a }) ∧
    s2.transactions = s.transactions ++
      [{ wallet_id := f, transaction_type := .Withdrawal, amount := a, timestamp := ts1 },
       { wallet_id := t, transaction_type := .Deposit, amount := a, timestamp := ts2 }] := by
  rcases transfer_ok_inv h with ⟨ha, wf, hwf, hb, ht⟩
  have heq := transfer_ok_eq s f t a ts1 ts2 wf ha hwf hb ht
  have hs2 : s2 = (⟨updateWallet
        (updateWallet s.wallets f (fun x => { x with balance := x.balance - a })) t
        (fun x => { x with balance := x.balance + a }),
      s.transactions ++
        [{ wallet_id := f, transaction_type := .Withdrawal, amount := a, timestamp := ts1 },
         { wallet_id := t, transaction_type := .Deposit, amount := a, timestamp := ts2 }]⟩ :
      CustodySystem) := by
    have hcomp := h.symm.trans heq
    simpa using hcomp
  rcases get_of_wallet_exists s t ht with ⟨wt, hwt⟩
  subst hs2
  rw [CustodySystem.get_wallet] at hwf hwt
  refine ⟨⟨wf, wt, hwf, hwt, ?_, ?_⟩, rfl⟩
  · show (updateWallet
        (updateWallet s.wallets f (fun x => { x with balance := x.balance - a })) t
        (fun x => { x with balance := x.balance + a })).find? (fun w => w.id == f)
      = some { wf with balance := wf.balance - a }
    rw [find?_updateWallet_ne (fun x => { x with balance := x.balance + a })
      (fun _ => rfl) (Ne.symm hft)]
    exact find?_updateWallet_self (fun x => { x with balance := x.balance - a })
      (fun _ => rfl) hwf
  · show (updateWallet
        (updateWallet s.wallets f (fun x => { x with balance := x.balance - a })) t
        (fun x => { x with balance := x.balance + a })).find? (fun w => w.id == t)
      = some { wt with balance := wt.balance + a }
    apply find?_updateWallet_self (fun x => { x with balance := x.balance + a })
      (fun _ => rfl)
    rw [find?_updateWallet_ne (fun x => { x with balance := x.balance - a })
      (fun _ => rfl) hft]
    exact hwt

theorem C4_witness :
    (∃ wf wt, sAB.get_wallet "a" = some wf ∧ sAB.get_wallet "b" = some wt ∧
      sAB2.get_wallet "a" = some { wf with balance := wf.balance - 3 } ∧
      sAB2.get_wallet "b" = some { wt with balance := wt.balance + 3 }) ∧
    sAB2.transactions = sAB.transactions ++
      [{ wallet_id := "a", transaction_type := .Withdrawal, amount := 3, timestamp := 7 },
       { wallet_id := "b", transaction_type := .Deposit, amount := 3, timestamp := 8 }] :=
  C4_transfer_success_distinct sAB "a" "b" 3 7 8 sAB2 (by decide) rfl

/-- C5: `get_total_balance` is the sum of all registered wallets' balances,
and every successful `transfer` leaves this total unchanged. -/
theorem C5_total_balance_conserved (s : CustodySystem) (f t : String) (a : ℚ)
    (ts1 ts2 : Nat) (s2 : CustodySystem) :
    s.get_total_balance = (s.wallets.map Wallet.balance).sum ∧
    (s.transfer f t a ts1 ts2 = (.ok (), s2) →
      s2.get_total_balance = s.get_total_balance) := by
  refine ⟨rfl, ?_⟩
  intro h
  rcases transfer_ok_inv h with ⟨ha, wf, hwf, hb, ht⟩
  have heq := transfer_ok_eq s f t a ts1 ts2 wf ha hwf hb ht
  have hs2 : s2 = (⟨updateWallet
        (updateWallet s.wallets f (fun x => { x with balance := x.balance - a })) t
        (fun x => { x with balance := x.balance + a }),
      s.transactions ++
        [{ wallet_id := f, transaction_type := .Withdrawal, amount := a, timestamp := ts1 },
         { wallet_id := t, transaction_type := .Deposit, amount := a, timestamp := ts2 }]⟩ :
      CustodySystem) := by
    have hcomp := h.symm.trans heq
    simpa using hcomp
  subst hs2
  rw [CustodySystem.get_wallet] at hwf
  obtain ⟨wt1, hwt1⟩ : ∃ wt1,
      (updateWallet s.wallets f (fun x => { x with balance := x.balance - a })).find?
        (fun w => w.id == t) = some wt1 := by
    rw [← Option.isSome_iff_exists, find?_updateWallet_isSome s.wallets f t
      (fun x => { x with balance := x.balance - a }) (fun _ => rfl)]
    rw [CustodySystem.wallet_exists, CustodySystem.get_wallet] at ht
    exact ht
  show ((updateWallet
      (updateWallet s.wallets f (fun x => { x with balance := x.balance - a })) t
      (fun x => { x with balance := x.balance + a })).map Wallet.balance).sum
    = (s.wallets.map Wallet.balance).sum
  rw [sum_balance_updateWallet _ hwt1, sum_balance_updateWallet _ hwf]
  show (s.wallets.map Wallet.balance).sum - wf.balance + (wf.balance - a)
      - wt1.balance + (wt1.balance + a)
    = (s.wallets.map Wallet.balance).sum
  ring

theorem C5_witness : sAB2.get_total_balance = sAB.get_total_balance :=
  (C5_total_balance_conserved sAB "a" "b" 3 7 8 sAB2).2 rfl

/-- C6: `withdraw` fails with `InvalidAmount` on `amount ≤ 0`, with
`NotFound` on an unregistered id, with `InsufficientBalance` (carrying the
available and requested amounts) when `balance < amount`, and otherwise
decreases the balance by `amount` and appends the matching `Withdrawal`
record; every failure returns the untouched state. -/
theorem C6_withdraw_spec (s : CustodySystem) (id : String) (a : ℚ) (ts : Nat) :
    (a ≤ 0 → s.withdraw id a ts = (.error .InvalidAmount, s)) ∧
    (0 < a → s.get_wallet id = none → s.withdraw id a ts = (.error (.NotFound id), s)) ∧
    (∀ w, 0 < a → s.get_wallet id = some w → w.balance < a →
      s.withdraw id a ts = (.error (.InsufficientBalance w.balance a), s)) ∧
    (∀ w, 0 < a → s.get_wallet id = some w → a ≤ w.balance →
      ∃ s2, s.withdraw id a ts = (.ok (), s2) ∧
        s2.get_wallet id = some { w with balance := w.balance - a } ∧
        s2.transactions = s.transactions ++
          [{ wallet_id := id, transaction_type := .Withdrawal, amount := a, timestamp := ts }]) := by
  refine ⟨fun ha => withdraw_err_nonpos s id a ts ha,
    fun ha hw => withdraw_err_notfound s id a ts ha hw,
    fun w ha hw hb => withdraw_err_insufficient s id a ts w ha hw hb,
    fun w ha hw hb => ⟨_, withdraw_ok_eq s id a ts w ha hw hb, ?_, rfl⟩⟩
  show (updateWallet s.wallets id (fun x => { x with balance := x.balance - a })).find?
      (fun w => w.id == id) = some { w with balance := w.balance - a }
  apply find?_updateWallet_self (fun x => { x with balance := x.balance - a }) (fun _ => rfl)
  rw [CustodySystem.get_wallet] at hw
  exact hw

theorem C6_witness :
    ∃ s2, sAB.withdraw "a" 2 9 = (.ok (), s2) ∧
      s2.get_wallet "a" = some { wA with balance := wA.balance - 2 } ∧
      s2.transactions = sAB.transactions ++
        [{ wallet_id := "a", transaction_type := .Withdrawal, amount := 2, timestamp := 9 }] :=
  (C6_withdraw_spec sAB "a" 2 9).2.2.2 wA (by decide) (by decide) (by decide)

/-- C7: `deposit` fails with `InvalidAmount` on `amount ≤ 0` (zero is an
error, not a no-op), with `NotFound` on an unregistered id, and otherwise
increases the balance by `amount` and appends the matching `Deposit`
record; every failure returns the untouched state. -/
theorem C7_deposit_spec (s : CustodySystem) (id : String) (a : ℚ) (ts : Nat) :
    (a ≤ 0 → s.deposit id a ts = (.error .InvalidAmount, s)) ∧
    (0 < a → s.get_wallet id = none → s.deposit id a ts = (.error (.NotFound id), s)) ∧
    (∀ w, 0 < a → s.get_wallet id = some w →
      ∃ s2, s.deposit id a ts = (.ok (), s2) ∧
        s2.get_wallet id = some { w with balance := w.balance + a } ∧
        s2.transactions = s.transactions ++
          [{ wallet_id := id, transaction_type := .Deposit, amount := a, timestamp := ts }]) := by
  refine ⟨fun ha => deposit_err_nonpos s id a ts ha,
    fun ha hw => deposit_err_notfound s id a ts ha hw,
    fun w ha hw => ⟨_, deposit_ok_eq s id a ts w ha hw, ?_, rfl⟩⟩
  show (updateWallet s.wallets id (fun x => { x with balance := x.balance + a })).find?
      (fun w => w.id == id) = some { w with balance := w.balance + a }
  apply find?_updateWallet_self (fun x => { x with balance := x.balance + a }) (fun _ => rfl)
  rw [CustodySystem.get_wallet] at hw
  exact hw

theorem C7_witness :
    sAB.deposit "a" 0 9 = (.error .InvalidAmount, sAB) ∧
    ∃ s2, sAB.deposit "a" 2 9 = (.ok (), s2) ∧
      s2.get_wallet "a" = some { wA with balance := wA.balance + 2 } ∧
      s2.transactions = sAB.transactions ++
        [{ wallet_id := "a", transaction_type := .Deposit, amount := 2, timestamp := 9 }] :=
  ⟨(C7_deposit_spec sAB "a" 0 9).1 (by decide),
   (C7_deposit_spec sAB "a" 2 9).2.2 wA (by decide) (by decide)⟩

/-- C8: `create_wallet` fails with `AlreadyExists` exactly when the id is
taken, returning the untouched state; otherwise it appends and returns a
wallet with the given id, address and category and balance `0`, with no
other validation (any strings, including empty ones, are accepted). -/
theorem C8_create_wallet_spec (s : CustodySystem) (id address : String) (wt : WalletType) :
    (s.wallet_exists id = true →
      s.create_wallet id address wt = (.error (.AlreadyExists id), s)) ∧
    (s.wallet_exists id = false →
      s.create_wallet id address wt =
        (.ok { id := id, address := address, balance := 0, wallet_type := wt },
          { s with wallets := s.wallets ++
              [{ id := id, address := address, balance := 0, wallet_type := wt }] })) :=
  ⟨create_wallet_err_exists s id address wt, create_wallet_ok_eq s id address wt⟩

theorem C8_witness :
    sAB.create_wallet "a" "0xZ" .Cold = (.error (.AlreadyExists "a"), sAB) ∧
    sAB.create_wallet "" "" .Cold =
      (.ok { id := "", address := "", balance := 0, wallet_type := .Cold },
        { sAB with wallets := sAB.wallets ++
            [{ id := "", address := "", balance := 0, wallet_type := .Cold }] }) :=
  ⟨(C8_create_wallet_spec sAB "a" "0xZ" .Cold).1 (by decide),
   (C8_create_wallet_spec sAB "" "" .Cold).2 (by decide)⟩

/-- C9: in every reachable state, `get_wallet_transactions` returns exactly
the subsequence of the log whose records carry the given wallet id — it is
a sublist of the log, all of its records match, it keeps every matching
record with its multiplicity — and it is empty (not an error) when the
wallet has no history or is not registered. -/
theorem C9_wallet_transactions (ops : List Op) (wallet_id : String) :
    ((CustodySystem.run ops).get_wallet_transactions wallet_id).Sublist
      (CustodySystem.run ops).transactions ∧
    (∀ t ∈ (CustodySystem.run ops).get_wallet_transactions wallet_id,
      t.wallet_id = wallet_id) ∧
    (∀ t : Transaction, ((CustodySystem.run ops).get_wallet_transactions wallet_id).count t
      = if t.wallet_id = wallet_id then (CustodySystem.run ops).transactions.count t else 0) ∧
    ((∀ t ∈ (CustodySystem.run ops).transactions, t.wallet_id ≠ wallet_id) →
      (CustodySystem.run ops).get_wallet_transactions wallet_id = []) ∧
    ((CustodySystem.run ops).wallet_exists wallet_id = false →
      (CustodySystem.run ops).get_wallet_transactions wallet_id = []) := by
  refine ⟨List.filter_sublist _, ?_, ?_, ?_, ?_⟩
  · intro t ht
    rw [CustodySystem.get_wallet_transactions, List.mem_filter] at ht
    simpa using ht.2
  · intro t
    by_cases h : t.wallet_id = wallet_id
    · rw [if_pos h, CustodySystem.get_wallet_transactions]
      exact List.count_filter (by simpa using h)
    · rw [if_neg h]
      refine List.count_eq_zero.mpr ?_
      intro hmem
      rw [CustodySystem.get_wallet_transactions, List.mem_filter] at hmem
      exact h (by simpa using hmem.2)
  · intro hnone
    rw [CustodySystem.get_wallet_transactions, List.filter_eq_nil_iff]
    intro t ht
    simpa using hnone t ht
  · intro hex
    rw [CustodySystem.get_wallet_transactions, List.filter_eq_nil_iff]
    intro t ht
    have hreg := (Inv_run ops).2.1 t ht
    intro hteq
    have hteq2 : t.wallet_id = wallet_id := by simpa using hteq
    have : (CustodySystem.run ops).wallet_exists wallet_id = true :=
      wallet_exists_iff_mem.mpr (hteq2 ▸ hreg)
    rw [this] at hex
    cases hex

theorem C9_witness :
    (CustodySystem.run opsW).get_wallet_transactions "zzz" = [] :=
  (C9_wallet_transactions opsW "zzz").2.2.2.2 (by decide)

/-- C10: a self-transfer is accepted: when wallet `w` is registered with
balance at least `amount > 0`, `transfer w w amount` succeeds, leaves the
balance unchanged, and appends a `Withdrawal` followed by a `Deposit` for
that wallet, both of that amount. -/
theorem C10_self_transfer (s : CustodySystem) (id : String) (w : Wallet) (a : ℚ)
    (ts1 ts2 : Nat) (hw : s.get_wallet id = some w) (ha : 0 < a) (hb : a ≤ w.balance) :
    ∃ s2, s.transfer id id a ts1 ts2 = (.ok (), s2) ∧
      (∃ w2, s2.get_wallet id = some w2 ∧ w2.balance = w.balance) ∧
      s2.transactions = s.transactions ++
        [{ wallet_id := id, transaction_type := .Withdrawal, amount := a, timestamp := ts1 },
         { wallet_id := id, transaction_type := .Deposit, amount := a, timestamp := ts2 }] := by
  have ht : s.wallet_exists id = true := wallet_exists_of_get s id w hw
  refine ⟨_, transfer_ok_eq s id id a ts1 ts2 w ha hw hb ht, ?_, rfl⟩
  rw [CustodySystem.get_wallet] at hw
  have h1 : (updateWallet s.wallets id (fun x => { x with balance := x.balance - a })).find?
      (fun x => x.id == id) = some { w with balance := w.balance - a } :=
    find?_updateWallet_self (fun x => { x with balance := x.balance - a }) (fun _ => rfl) hw
  refine ⟨{ w with balance := w.balance - a + a }, ?_, ?_⟩
  · show (updateWallet
        (updateWallet s.wallets id (fun x => { x with balance := x.balance - a })) id
        (fun x => { x with balance := x.balance + a })).find? (fun x => x.id == id)
      = some { w with balance := w.balance - a + a }
    exact find?_updateWallet_self (fun x => { x with balance := x.balance + a })
      (fun _ => rfl) h1
  · show w.balance - a + a = w.balance
    ring

theorem C10_witness :
    ∃ s2, sAB.transfer "a" "a" 3 7 8 = (.ok (), s2) ∧
      (∃ w2, s2.get_wallet "a" = some w2 ∧ w2.balance = wA.balance) ∧
      s2.transactions = sAB.transactions ++
        [{ wallet_id := "a", transaction_type := .Withdrawal, amount := 3, timestamp := 7 },
         { wallet_id := "a", transaction_type := .Deposit, amount := 3, timestamp := 8 }] :=
  C10_self_transfer sAB "a" wA 3 7 8 rfl (by decide) (by decide)

end SecureVault
